import Mathlib

/-!
Shallow embedding of `netatmo.py` (a command-line client for the Netatmo
weather-station API), covering the OAuth2 token lifecycle
(`WeatherStation.accessToken`, `saveTokens`, `saveCredentials`), station and
module resolution (`stationByName`, `moduleByName`), and the resumable CSV
exporter (`last_timestamp`, `dl_csv`).

Conventions of the embedding:
* Python `None` becomes `Option.none`; a possibly-`None` string is `Option String`.
* `time.time()` is passed in explicitly as `now : Nat` (seconds since epoch).
* Network traffic is modelled by passing in the JSON response the endpoint
  would return, and by recording the issued request in an effect trace.
* Side effects (POST requests, `print` of an upstream error, the call to
  `saveTokens`) are recorded in order in a `List Effect`.
-/

/-! ### Token manager: `WeatherStation.accessToken` (netatmo.py lines 199-256) -/

/-- In-memory state of a `WeatherStation` object: the four credentials set by
`auth`, and the token triple set by `loadTokens` or by a successful grant.
`refresh_token` and `expiration` are only meaningful when `access_token` is
set, as in the source. -/
structure WSState where
  client_id : Option String
  client_secret : Option String
  username : Option String
  password : Option String
  access_token : Option String
  refresh_token : Option String
  expiration : Nat
deriving DecidableEq, Repr

/-- JSON body returned by the OAuth2 token endpoint: either an `error` field is
present, or the grant succeeded and the three token fields are meaningful. -/
structure TokenResp where
  error : Option String
  access_token : String
  refresh_token : String
  expires_in : Nat
deriving DecidableEq, Repr

/-- POST request to the token endpoint, with the parameters the code puts in
`postParams` (the constant `grant_type` and `scope` fields are implied by the
constructor). -/
inductive GrantReq
  | password (client_id client_secret username pass : String)
  | refresh (refresh_token : Option String) (client_id client_secret : String)
deriving DecidableEq, Repr

/-- Observable side effects of one `accessToken` read, in program order. -/
inductive Effect
  | request (r : GrantReq)
  | printError (e : String)
  | save (access_token refresh_token : String) (expiration : Nat)
deriving DecidableEq, Repr

/-- Model of the property read `WeatherStation.accessToken` (lines 199-256).
Returns the result (`none` models Python `None`, "unavailable"), the state of
the object after the read, and the effect trace.  `resp` is the JSON the token
endpoint would answer if a request is issued; `now` is `time.time()`. -/
def accessToken (st : WSState) (now : Nat) (resp : TokenResp) :
    Option String × WSState × List Effect :=
  match st.client_id, st.client_secret with
  | some cid, some cs =>
    match st.access_token with
    | none =>
      match st.username, st.password with
      | some user, some pass =>
        match resp.error with
        | some e => (none, st, [.request (.password cid cs user pass), .printError e])
        | none =>
          (some resp.access_token,
           { st with access_token := some resp.access_token,
                     refresh_token := some resp.refresh_token,
                     expiration := resp.expires_in + now },
           [.request (.password cid cs user pass),
            .save resp.access_token resp.refresh_token (resp.expires_in + now)])
      | _, _ => (none, st, [])
    | some tok =>
      if st.expiration ≤ now then
        match resp.error with
        | some e => (none, st, [.request (.refresh st.refresh_token cid cs), .printError e])
        | none =>
          (some resp.access_token,
           { st with access_token := some resp.access_token,
                     refresh_token := some resp.refresh_token,
                     expiration := resp.expires_in + now },
           [.request (.refresh st.refresh_token cid cs),
            .save resp.access_token resp.refresh_token (resp.expires_in + now)])
      else
        (some tok, st, [])
  | _, _ => (none, st, [])

/-- Count of network requests in an effect trace. -/
def requestCount (effs : List Effect) : Nat :=
  effs.countP fun e => match e with | .request _ => true | _ => false

/-! ### Durable credential/token file: `saveCredentials` / `saveTokens`
(netatmo.py lines 148-167 and 184-197) -/

/-- Contents of the `[netatmo]` section of the rc file.  `str(x)` of a `None`
credential writes the literal string `None`, which `pyStr` reproduces. -/
structure CredsSection where
  client_id : String
  client_secret : String
  username : String
  password : String
  default_station : Option String
deriving DecidableEq, Repr

/-- Contents of the `[netatmo/tokens]` section of the rc file.  The source
stores `expiration` as an ISO-8601 rendering of this epoch timestamp; the
rendering is invertible, so the timestamp itself is stored here. -/
structure TokenSection where
  access_token : String
  refresh_token : String
  expiration : Nat
deriving DecidableEq, Repr

/-- The rc file as far as the program reads or writes it: the two sections it
owns.  Sections and keys the program never touches are preserved verbatim by
`configparser` and are not modelled. -/
structure ConfigFile where
  netatmo : Option CredsSection
  tokens : Option TokenSection
deriving DecidableEq, Repr

/-- Python `str` applied to a possibly-`None` string, as in
`config['netatmo']['client_id'] = str(self._client_id)`. -/
def pyStr : Option String → String
  | none => "None"
  | some s => s

/-- Model of `WeatherStation.saveCredentials` (lines 148-167): re-read the rc
file, overwrite every key of the `[netatmo]` section (removing
`default_station` when unset), remove the `[netatmo/tokens]` section, and
write the file back. -/
def saveCredentials (_file : ConfigFile) (cid cs user pass : Option String)
    (default_station : Option String) : ConfigFile :=
  { netatmo := some { client_id := pyStr cid, client_secret := pyStr cs,
                      username := pyStr user, password := pyStr pass,
                      default_station := default_station },
    tokens := none }

/-- Model of `WeatherStation.saveTokens` (lines 184-197): re-read the rc file,
replace the `[netatmo/tokens]` section with the in-memory token triple, and
write the file back.  All other sections are left as read. -/
def saveTokens (file : ConfigFile) (access refresh : String) (expiration : Nat) :
    ConfigFile :=
  { file with tokens := some { access_token := access, refresh_token := refresh,
                               expiration := expiration } }

/-! ### Claims C3, C4, C5, C8 on the token manager -/

/-- C3: after a state in which a token was just obtained (successful password
grant from a fresh state), any further `accessToken` read at a time strictly
before the recorded expiration returns the very same token, leaves the state
unchanged, and issues no effect at all, in particular no network request. -/
theorem accessToken_cached (st : WSState) (now : Nat) (resp : TokenResp)
    (cid cs user pass : String)
    (hcid : st.client_id = some cid) (hcs : st.client_secret = some cs)
    (huser : st.username = some user) (hpass : st.password = some pass)
    (htok : st.access_token = none) (herr : resp.error = none) :
    (accessToken st now resp).1 = some resp.access_token ∧
    ∀ (now2 : Nat) (resp2 : TokenResp),
      now2 < (accessToken st now resp).2.1.expiration →
      accessToken (accessToken st now resp).2.1 now2 resp2 =
        ((accessToken st now resp).1, (accessToken st now resp).2.1, []) := by
  cases st with
  | mk cid0 cs0 user0 pass0 tok0 rtok0 exp0 =>
    simp only at hcid hcs huser hpass htok
    subst hcid hcs huser hpass htok
    constructor
    · simp [accessToken, herr]
    · intro now2 resp2 hlt
      simp only [accessToken, herr] at hlt ⊢
      have hnow : ¬ (resp.expires_in + now ≤ now2) := by omega
      simp [hnow]

/-- Witness for `accessToken_cached` at a concrete state and response. -/
theorem accessToken_cached_witness :
    (accessToken ⟨some "i", some "s", some "u", some "p", none, none, 0⟩ 100
        ⟨none, "tok", "rtok", 3600⟩).1 = some "tok" ∧
    accessToken (accessToken ⟨some "i", some "s", some "u", some "p", none, none, 0⟩ 100
        ⟨none, "tok", "rtok", 3600⟩).2.1 200 ⟨some "never sent", "x", "y", 1⟩ =
      (some "tok",
       (accessToken ⟨some "i", some "s", some "u", some "p", none, none, 0⟩ 100
        ⟨none, "tok", "rtok", 3600⟩).2.1, []) := by
  have h := accessToken_cached ⟨some "i", some "s", some "u", some "p", none, none, 0⟩ 100
      ⟨none, "tok", "rtok", 3600⟩ "i" "s" "u" "p" rfl rfl rfl rfl rfl rfl
  refine ⟨h.1, ?_⟩
  have h2 := h.2 200 ⟨some "never sent", "x", "y", 1⟩ (by decide)
  rw [h2, h.1]

/-- C4 counterexample: with all four credentials present but username and
password equal to the empty string (not Python `None`), `accessToken` does
issue a password-grant network request — the `is None` checks of lines 201 and
207 do not treat the empty string as missing.  The claim asserts no request is
issued at this input. -/
theorem accessToken_emptyCreds_requests :
    (accessToken ⟨some "i", some "s", some "", some "", none, none, 0⟩ 0
        ⟨some "invalid_grant", "", "", 0⟩).2.2 =
      [Effect.request (GrantReq.password "i" "s" "" ""),
       Effect.printError "invalid_grant"] ∧
    requestCount (accessToken ⟨some "i", some "s", some "", some "", none, none, 0⟩ 0
        ⟨some "invalid_grant", "", "", 0⟩).2.2 = 1 := by
  constructor <;> rfl

/-- C4 amended: a credential is "missing" exactly when it is Python `None`.
When `client_id` or `client_secret` is `None`, or when no token is held and
`username` or `password` is `None`, `accessToken` returns the unavailable
result (`None`) without any effect, in particular without any network
request.  (An empty-string credential is present, not missing, and does not
prevent the request; see `accessToken_emptyCreds_requests`.) -/
theorem accessToken_missingCreds_unavailable (st : WSState) (now : Nat)
    (resp : TokenResp)
    (h : st.client_id = none ∨ st.client_secret = none ∨
         (st.access_token = none ∧ (st.username = none ∨ st.password = none))) :
    accessToken st now resp = (none, st, []) := by
  cases st with
  | mk cid cs user pass tok rtok exp =>
    rcases h with h | h | ⟨htok, h⟩
    · simp only at h; subst h; rfl
    · simp only at h; subst h; cases cid <;> rfl
    · simp only at htok h ⊢
      subst htok
      cases cid with
      | none => rfl
      | some cid =>
        cases cs with
        | none => rfl
        | some cs =>
          rcases h with h | h
          · subst h; rfl
          · subst h; cases user <;> rfl

/-- Witness for `accessToken_missingCreds_unavailable`: no username. -/
theorem accessToken_missingCreds_unavailable_witness :
    accessToken ⟨some "i", some "s", none, some "p", none, none, 0⟩ 7
        ⟨none, "t", "r", 1⟩ =
      (none, ⟨some "i", some "s", none, some "p", none, none, 0⟩, []) :=
  accessToken_missingCreds_unavailable _ 7 _ (Or.inr (Or.inr ⟨rfl, Or.inl rfl⟩))

/-- C5 counterexample: the token is expired (`expiration = 50 ≤ now = 100`) and
the refresh grant answers an upstream error.  `accessToken` reports the error
and returns unavailable, but the state is returned unchanged — the stale
token pair is kept — so the very next read (here at `now = 101`, succeeding)
issues another refresh-grant request, not the password grant the claim
requires. -/
theorem accessToken_refreshError_retriesRefresh :
    accessToken ⟨some "i", some "s", some "u", some "p", some "old", some "r", 50⟩ 100
        ⟨some "invalid_grant", "", "", 0⟩ =
      (none, ⟨some "i", some "s", some "u", some "p", some "old", some "r", 50⟩,
       [Effect.request (GrantReq.refresh (some "r") "i" "s"),
        Effect.printError "invalid_grant"]) ∧
    (accessToken ⟨some "i", some "s", some "u", some "p", some "old", some "r", 50⟩ 101
        ⟨none, "new", "newr", 3600⟩).2.2 =
      [Effect.request (GrantReq.refresh (some "r") "i" "s"),
       Effect.save "new" "newr" 3701] := by
  constructor <;> rfl

/-- C5 amended: when the token is expired and the refresh grant answers an
upstream error, `accessToken` issues exactly that one refresh request, prints
the error, returns unavailable, and leaves the state completely unchanged —
so the next access attempts another refresh, not a password-grant
re-authentication. -/
theorem accessToken_refreshError_stateUnchanged (st : WSState) (now : Nat)
    (resp : TokenResp) (cid cs tok e : String)
    (hcid : st.client_id = some cid) (hcs : st.client_secret = some cs)
    (htok : st.access_token = some tok) (hexp : st.expiration ≤ now)
    (herr : resp.error = some e) :
    accessToken st now resp =
      (none, st, [.request (.refresh st.refresh_token cid cs), .printError e]) := by
  cases st with
  | mk cid0 cs0 user0 pass0 tok0 rtok0 exp0 =>
    simp only at hcid hcs htok hexp ⊢
    subst hcid hcs htok
    simp [accessToken, hexp, herr]

/-- Witness for `accessToken_refreshError_stateUnchanged`. -/
theorem accessToken_refreshError_stateUnchanged_witness :
    accessToken ⟨some "i", some "s", some "u", some "p", some "old", some "r", 50⟩ 100
        ⟨some "bad", "", "", 0⟩ =
      (none, ⟨some "i", some "s", some "u", some "p", some "old", some "r", 50⟩,
       [.request (.refresh (some "r") "i" "s"), .printError "bad"]) :=
  accessToken_refreshError_stateUnchanged _ 100 _ "i" "s" "old" "bad"
    rfl rfl rfl (by decide) rfl

/-- C8: on every successful grant — password grant from a token-less state, or
refresh grant from an expired one — `accessToken` issues exactly one network
request, then invokes `saveTokens` with precisely the new token, refresh token
and expiration (the same triple installed in the returned state), and only
then returns the new token; the trace contains nothing else. -/
theorem accessToken_grant_persists (st : WSState) (now : Nat) (resp : TokenResp)
    (cid cs : String)
    (hcid : st.client_id = some cid) (hcs : st.client_secret = some cs)
    (herr : resp.error = none)
    (hcase : (st.access_token = none ∧ st.username.isSome ∧ st.password.isSome) ∨
             (∃ tok, st.access_token = some tok ∧ st.expiration ≤ now)) :
    (accessToken st now resp).1 = some resp.access_token ∧
    (accessToken st now resp).2.1.access_token = some resp.access_token ∧
    (accessToken st now resp).2.1.refresh_token = some resp.refresh_token ∧
    (accessToken st now resp).2.1.expiration = resp.expires_in + now ∧
    (∃ r, (accessToken st now resp).2.2 =
      [Effect.request r,
       Effect.save resp.access_token resp.refresh_token (resp.expires_in + now)]) ∧
    requestCount (accessToken st now resp).2.2 = 1 := by
  cases st with
  | mk cid0 cs0 user0 pass0 tok0 rtok0 exp0 =>
    simp only at hcid hcs hcase
    subst hcid hcs
    rcases hcase with ⟨htok, huser, hpass⟩ | ⟨tok, htok, hexp⟩
    · obtain ⟨user, huser⟩ := Option.isSome_iff_exists.mp huser
      obtain ⟨pass, hpass⟩ := Option.isSome_iff_exists.mp hpass
      subst htok huser hpass
      refine ⟨?_, ?_, ?_, ?_, ⟨.password cid cs user pass, ?_⟩, ?_⟩ <;>
        simp [accessToken, herr, requestCount]
    · subst htok
      refine ⟨?_, ?_, ?_, ?_, ⟨.refresh rtok0 cid cs, ?_⟩, ?_⟩ <;>
        simp [accessToken, herr, hexp, requestCount]

/-- Witness for `accessToken_grant_persists`: a refresh grant. -/
theorem accessToken_grant_persists_witness :
    (accessToken ⟨some "i", some "s", some "u", some "p", some "old", some "r", 50⟩ 100
        ⟨none, "new", "newr", 3600⟩).2.2 =
      [Effect.request (GrantReq.refresh (some "r") "i" "s"),
       Effect.save "new" "newr" 3700] ∧
    requestCount (accessToken ⟨some "i", some "s", some "u", some "p", some "old", some "r", 50⟩
        100 ⟨none, "new", "newr", 3600⟩).2.2 = 1 := by
  exact ⟨rfl, (accessToken_grant_persists
    ⟨some "i", some "s", some "u", some "p", some "old", some "r", 50⟩ 100
    ⟨none, "new", "newr", 3600⟩ "i" "s" rfl rfl rfl
    (Or.inr ⟨"old", rfl, by decide⟩)).2.2.2.2.2⟩

/-! ### Claims C9 and C10 on the rc file -/

/-- C9 counterexample: `saveTokens` applied to an rc file that does not contain
the `[netatmo]` credentials section (for instance a missing file) writes a
file whose token section is present while the credentials section is absent.
The claimed invariant fails for this write. -/
theorem saveTokens_without_creds :
    (saveTokens ⟨none, none⟩ "a" "r" 0).tokens =
      some ⟨"a", "r", 0⟩ ∧
    (saveTokens ⟨none, none⟩ "a" "r" 0).netatmo = none := by
  constructor <;> rfl

/-- C9 amended: `saveTokens` never touches the credentials section, so whenever
the file already holds one — as it does in every run of this program that
reaches `saveTokens`, since a token can only be minted from credentials that
were loaded from that same file — the written file contains the credentials
section together with the token section.  Only a write to a file lacking the
credentials section (never produced by this program) leaves the token section
alone. -/
theorem saveTokens_preserves_creds (file : ConfigFile) (a r : String) (e : Nat)
    (h : file.netatmo.isSome) :
    (saveTokens file a r e).netatmo.isSome ∧
    (saveTokens file a r e).tokens.isSome := by
  exact ⟨h, rfl⟩

/-- Witness for `saveTokens_preserves_creds`. -/
theorem saveTokens_preserves_creds_witness :
    (saveTokens ⟨some ⟨"i", "s", "u", "p", none⟩, none⟩ "a" "r" 5).netatmo.isSome ∧
    (saveTokens ⟨some ⟨"i", "s", "u", "p", none⟩, none⟩ "a" "r" 5).tokens.isSome :=
  saveTokens_preserves_creds ⟨some ⟨"i", "s", "u", "p", none⟩, none⟩ "a" "r" 5 rfl

/-- C10: every `saveCredentials` write removes the `[netatmo/tokens]` section
(line 164 `config.remove_section` runs unconditionally) while writing the
credentials section, for every prior file content — including a file whose
stored credentials are identical to the ones being saved. -/
theorem saveCredentials_discards_tokens (file : ConfigFile)
    (cid cs user pass ds : Option String) :
    (saveCredentials file cid cs user pass ds).tokens = none ∧
    (saveCredentials file cid cs user pass ds).netatmo =
      some ⟨pyStr cid, pyStr cs, pyStr user, pyStr pass, ds⟩ := by
  constructor <;> rfl

/-! ### Station directory: `stationByName` / `moduleByName`
(netatmo.py lines 304-321) -/

/-- Module record of the device snapshot, restricted to the fields the
resolution code reads. -/
structure NAModule where
  _id : String
  module_name : String
deriving DecidableEq, Repr

/-- Station record of the device snapshot, restricted to the fields the
resolution code reads (`module_name` and `_id` of the station itself double as
its primary module). -/
structure NAStation where
  _id : String
  station_name : String
  module_name : String
  modules : List NAModule
deriving DecidableEq, Repr

/-- Python truthiness test `not station` for a possibly-`None` string. -/
def pyFalsy : Option String → Bool
  | none => true
  | some s => s = ""

/-- ASCII lower-casing of one character. -/
def lowerChar (c : Char) : Char :=
  if 65 ≤ c.toNat ∧ c.toNat ≤ 90 then Char.ofNat (c.toNat + 32) else c

/-- Model of Python `str.lower()` on the ASCII strings (MAC-like device ids)
this program compares. -/
def pyLower (s : String) : String := ⟨s.data.map lowerChar⟩

/-- Loop body of `stationByName` (lines 307-310): scan the devices in order;
an empty or `None` identifier returns the current entry, then exact
`station_name` match, then case-insensitive `_id` match. -/
def findStation : List NAStation → Option String → Option NAStation
  | [], _ => none
  | i :: rest, station =>
    match station with
    | none => some i
    | some s =>
      if s = "" then some i
      else if i.station_name = s then some i
      else if pyLower i._id = pyLower s then some i
      else findStation rest (some s)

/-- Model of `WeatherStation.stationByName` (lines 304-311): `None` devices
(no snapshot fetched) gives `None`; a falsy identifier is replaced by the
stored default station before the scan. -/
def stationByName (devices : Option (List NAStation)) (default_station : Option String)
    (station : Option String) : Option NAStation :=
  match devices with
  | none => none
  | some devs =>
    findStation devs (if pyFalsy station then default_station else station)

/-- Loop body of `moduleByName` (lines 318-320): scan the attached modules in
order, matching exact `module_name` then exact `_id` (both case-sensitive). -/
def findModule : List NAModule → String → Option NAModule
  | [], _ => none
  | m :: rest, mname =>
    if m.module_name = mname then some m
    else if m._id = mname then some m
    else findModule rest mname

/-- Model of `WeatherStation.moduleByName` (lines 313-321): resolve the
station, check whether the station record itself (its primary module) matches
by exact `module_name` or exact `_id`, then scan its attached modules.  The
returned value is the station record (`Sum.inl`) or a module record
(`Sum.inr`); `none` is the explicit not-found result. -/
def moduleByName (devices : Option (List NAStation)) (default_station : Option String)
    (mname : String) (station : Option String) : Option (NAStation ⊕ NAModule) :=
  match stationByName devices default_station station with
  | none => none
  | some s =>
    if s.module_name = mname then some (Sum.inl s)
    else if s._id = mname then some (Sum.inl s)
    else (findModule s.modules mname).map Sum.inr

/-- Station-resolution contract written from the spec's words, with the module
id rule corrected to the case-sensitive comparison the code performs: a
non-empty identifier resolves to the first snapshot entry matching by exact
name or case-insensitive id. -/
def specFindStation (devs : List NAStation) (s : String) : Option NAStation :=
  devs.find? fun i => i.station_name == s || pyLower i._id == pyLower s

/-- Resolution contract for a possibly-absent identifier: a falsy identifier
falls back to the stored default, and a falsy effective identifier matches the
first snapshot entry. -/
def specStation (devs : List NAStation) (default_station : Option String)
    (q : Option String) : Option NAStation :=
  match (if pyFalsy q then default_station else q) with
  | none => devs.head?
  | some s => if s = "" then devs.head? else specFindStation devs s

/-- Module-resolution contract: resolve the station, prefer its own primary
module on exact name or exact id match, otherwise take the first attached
module matching by exact name or exact id. -/
def specModule (devs : List NAStation) (default_station : Option String)
    (mname : String) (q : Option String) : Option (NAStation ⊕ NAModule) :=
  match specStation devs default_station q with
  | none => none
  | some s =>
    if s.module_name = mname ∨ s._id = mname then some (Sum.inl s)
    else (s.modules.find? fun m => m.module_name == mname || m._id == mname).map Sum.inr

/-- Concrete snapshot for the C7 counterexample: the attached module id is
stored in upper case. -/
def cexStation : NAStation :=
  { _id := "70:ee:50:00:00:01", station_name := "Home", module_name := "Indoor",
    modules := [{ _id := "02:00:00:AA:BB:CC", module_name := "Outdoor" }] }

/-- Concrete snapshot for the station-id scenario: the station id is stored in
lower case. -/
def scStation : NAStation :=
  { _id := "a4:2e:06:11:22:33", station_name := "Salon", module_name := "Indoor",
    modules := [] }

/-- C7 counterexample: module resolution is not case-insensitive on ids.  The
snapshot stores the module id in upper case; querying it in lower case — an
id differing only in case, as witnessed by the second conjunct — returns the
explicit not-found result instead of the module the claim requires. -/
theorem moduleByName_id_caseSensitive :
    moduleByName (some [cexStation]) none "02:00:00:aa:bb:cc" none = none ∧
    cexStation.modules.map (fun m => pyLower m._id) = ["02:00:00:aa:bb:cc"] := by
  constructor <;> decide

/-- Unfolding of `findStation` against the spec-side scan `specFindStation`. -/
theorem findStation_eq_spec (devs : List NAStation) (s : String) (hs : s ≠ "") :
    findStation devs (some s) = specFindStation devs s := by
  induction devs with
  | nil => rfl
  | cons i rest ih =>
    by_cases h1 : i.station_name = s
    · simp [findStation, specFindStation, hs, h1]
    · by_cases h2 : pyLower i._id = pyLower s
      · simp [findStation, specFindStation, hs, h1, h2]
      · simp only [findStation, specFindStation, if_neg hs, if_neg h1, if_neg h2,
          List.find?_cons] at ih ⊢
        have : (i.station_name == s || pyLower i._id == pyLower s) = false := by
          simp [h1, h2]
        rw [this]
        exact ih

/-- Unfolding of `findModule` against the spec-side scan. -/
theorem findModule_eq_spec (mods : List NAModule) (mname : String) :
    findModule mods mname = mods.find? fun m => m.module_name == mname || m._id == mname := by
  induction mods with
  | nil => rfl
  | cons m rest ih =>
    by_cases h1 : m.module_name = mname
    · simp [findModule, h1]
    · by_cases h2 : m._id = mname
      · simp [findModule, h1, h2]
      · simp only [findModule, if_neg h1, if_neg h2, List.find?_cons] at ih ⊢
        have : (m.module_name == mname || m._id == mname) = false := by
          simp [h1, h2]
        rw [this]
        exact ih

/-- C7 amended: station resolution follows the claimed priority — a falsy
(empty or absent) identifier falls back to the stored default, a falsy
effective identifier matches the first snapshot entry, and otherwise the first
entry matching by exact name or case-insensitive id wins (third conjunct:
the stored case of the station id is irrelevant).  Module resolution applies
the same station step, then checks the station's own primary module and its
attached modules in order — but by exact name or exact, case-sensitive id.
Resolution failure is the explicit `none` result, never an exception. -/
theorem resolution_spec :
    (∀ (devs : List NAStation) (ds q : Option String),
      stationByName (some devs) ds q = specStation devs ds q) ∧
    (∀ (devs : List NAStation) (ds : Option String) (mname : String) (q : Option String),
      moduleByName (some devs) ds mname q = specModule devs ds mname q) ∧
    stationByName (some [scStation]) none (some "A4:2E:06:11:22:33") = some scStation := by
  have hstation : ∀ (devs : List NAStation) (ds q : Option String),
      stationByName (some devs) ds q = specStation devs ds q := by
    intro devs ds q
    unfold stationByName specStation
    generalize (if pyFalsy q then ds else q) = r
    cases r with
    | none => cases devs <;> rfl
    | some s =>
      show findStation devs (some s) = if s = "" then devs.head? else specFindStation devs s
      by_cases hs : s = ""
      · subst hs; cases devs <;> rfl
      · rw [if_neg hs, findStation_eq_spec devs s hs]
  refine ⟨hstation, ?_, by decide⟩
  intro devs ds mname q
  unfold moduleByName specModule
  rw [hstation devs ds q]
  cases specStation devs ds q with
  | none => rfl
  | some s =>
    by_cases h1 : s.module_name = mname
    · simp [h1]
    · by_cases h2 : s._id = mname
      · simp [h1, h2]
      · simp [h1, h2, findModule_eq_spec]

/-! ### Time-series exporter: `last_timestamp` and `dl_csv`
(netatmo.py lines 370-382 and 396-438) -/

/-- One line of the CSV sink, at the level `last_timestamp` reads it back.
The tail read of the file (the final `min(size, 100)` bytes) yields the file's
final line, which is exact whenever that line is at most 100 bytes long — true
of every row this exporter writes.  A `data` line's first field is the
canonical decimal numeral of `t` (written unquoted by `QUOTE_NONNUMERIC`),
which `isnumeric`/`int` parse back to `t`; the `header` line's first field is
the quoted word `"Timestamp"`, which is not numeric; `raw` stands for any
other externally written line, carrying its first semicolon-delimited field. -/
inductive Line
  | header
  | data (t : Nat) (vals : List Int)
  | raw (firstField : String)
deriving DecidableEq, Repr

/-- Model of Python `str.isnumeric` on the ASCII text a csv line can hold:
non-empty and all decimal digits. -/
def isNumericStr (s : String) : Bool := !s.data.isEmpty && s.data.all Char.isDigit

/-- Value of `int(t)` on an all-digit string. -/
def parseNat (s : String) : Nat := s.data.foldl (fun a c => 10 * a + (c.toNat - 48)) 0

/-- Model of `last_timestamp` (lines 370-382): the most recent timestamp in a
csv file — the first field of the final line when it parses as numeric,
otherwise 0 (also for an absent or empty file, `sink = []`). -/
def last_timestamp (sink : List Line) : Nat :=
  match sink.getLast? with
  | some (.data t _) => t
  | some .header => 0
  | some (.raw s) => if isNumericStr s then parseNat s else 0
  | none => 0

/-- Resume point computed at the top of `dl_csv` (lines 398-399):
`start = last_timestamp(filename); if start > 0: start += 1`. -/
def resume (sink : List Line) : Nat :=
  if 0 < last_timestamp sink then last_timestamp sink + 1 else last_timestamp sink

/-- Big-endian decimal digits, fuel-driven so that the kernel can evaluate it
(`fuel = n` always suffices, the recursion exits after one step per digit). -/
def beDigitsAux : Nat → Nat → List Nat
  | 0, _ => []
  | fuel + 1, n => if n = 0 then [] else beDigitsAux fuel (n / 10) ++ [n % 10]

/-- Big-endian decimal digits of `n`, the digit list of the decimal numeral
`str(n)` that serves as JSON object key for a timestamp. -/
def beDigits (n : Nat) : List Nat := if n = 0 then [0] else beDigitsAux n n

/-- Lexicographic comparison of digit lists: exactly Python string `<` on the
numerals they spell (a digit compares like its character). -/
def lexLt : List Nat → List Nat → Bool
  | [], [] => false
  | [], _ :: _ => true
  | _ :: _, [] => false
  | a :: as, b :: bs => if a < b then true else if b < a then false else lexLt as bs

/-- Python string comparison `str(a) < str(b)` of two timestamp keys: JSON
object keys are decimal strings and `sorted` compares them as strings. -/
def keyLt (a b : Nat) : Bool := lexLt (beDigits a) (beDigits b)

/-- Order in which `sorted(v['body'].items())` yields the page entries: weakly
increasing key strings (keys of one JSON object are distinct, so the value
component of an item is never compared). -/
def keyOrder (x y : Nat × List Int) : Prop := keyLt y.1 x.1 = false

instance : DecidableRel keyOrder := fun x y => by unfold keyOrder; infer_instance

/-- Model of `sorted(v['body'].items())` (line 424): the page entries, sorted
by their key strings. -/
def sortBody (body : List (Nat × List Int)) : List (Nat × List Int) :=
  List.insertionSort keyOrder body

/-- JSON answer of the measurements endpoint: the optional `status` field
(`none` models a missing key) and `body`, a JSON object from timestamp key to
the list of metric values, embedded as an association list with numeric keys
(a non-numeric key would crash `int(t)` at line 425). -/
structure MeasureResp where
  status : Option String
  body : List (Nat × List Int)
deriving DecidableEq, Repr

/-- Test of line 416: `'status' in v and v['status'] == 'ok'`. -/
def respOk (v : MeasureResp) : Bool := v.status == some "ok"

/-- Cursor update of line 430, folded over the page rows in written order:
`if start < t: start = t`. -/
def advanceStart (start : Nat) (rows : List (Nat × List Int)) : Nat :=
  rows.foldl (fun s r => if s < r.1 then r.1 else s) start

/-- Rows of one page as appended csv lines (line 429; the derived date-time
string of line 426 is a function of `t` and is not separately modelled). -/
def pageLines (rows : List (Nat × List Int)) : List Line :=
  rows.map fun r => Line.data r.1 r.2

/-- Which of the three `break` statements of the download loop fired. -/
inductive StopReason
  | statusError
  | noData
  | reachedEnd
deriving DecidableEq, Repr

/-- Download loop of `dl_csv` (lines 410-436).  `f` maps the `date_begin` of a
`getMeasure` request to the response the upstream would give; `fuel` bounds
the number of iterations, `none` meaning the loop was still running (the
Python loop is `while True` and can iterate arbitrarily long).  Returns the
whole sink content and the reason the loop stopped. -/
def dl_loop (f : Nat → MeasureResp) (dateEnd : Nat) :
    Nat → Nat → List Line → Option (List Line × StopReason)
  | 0, _, _ => none
  | fuel + 1, start, sink =>
    let v := f start
    if !respOk v then some (sink, .statusError)
    else if v.body.isEmpty then some (sink, .noData)
    else
      let rows := sortBody v.body
      let sink2 := sink ++ pageLines rows
      let start2 := advanceStart start rows
      if dateEnd ≤ start2 then some (sink2, .reachedEnd)
      else dl_loop f dateEnd fuel (start2 + 1) sink2

/-- Model of `dl_csv` (lines 396-438): compute the resume point from the
existing sink, write the header row when the file is empty, then run the
download loop. -/
def dl_csv (f : Nat → MeasureResp) (sink0 : List Line) (dateEnd fuel : Nat) :
    Option (List Line × StopReason) :=
  dl_loop f dateEnd fuel (resume sink0) (if sink0.isEmpty then [Line.header] else sink0)

/-- Timestamps of the data rows of a sink, in file order. -/
def dataTs (sink : List Line) : List Nat :=
  sink.filterMap fun l => match l with | .data t _ => some t | _ => none

/-! ### Claim C2: the resume point -/

/-- C2 counterexample: a sink whose final row carries timestamp 0.  Its first
field `0` parses as numeric, so the claim requires resume = 0 + 1 = 1, but
`last_timestamp` returns 0 and the `if start > 0` guard of line 399 skips the
increment, giving 0. -/
theorem resume_zero_row :
    resume [Line.header, Line.data 0 []] = 0 ∧
    resume [Line.header, Line.data 0 []] ≠ 0 + 1 := by
  constructor <;> decide

/-- C2 amended: the resume timestamp is the final row's timestamp + 1 when
that row's first field parses as numeric with a positive value; it is 0 when
the sink is empty or absent, when the final row does not parse as numeric
(the header row included), and also when the final row's numeric value is 0 —
that last case is the one the original claim misses. -/
theorem resume_spec (sink : List Line) :
    (∀ t vals, sink.getLast? = some (Line.data t vals) →
      resume sink = if 0 < t then t + 1 else 0) ∧
    (sink.getLast? = none → resume sink = 0) ∧
    (sink.getLast? = some Line.header → resume sink = 0) ∧
    (∀ s, sink.getLast? = some (Line.raw s) →
      resume sink = if isNumericStr s ∧ 0 < parseNat s then parseNat s + 1 else 0) := by
  refine ⟨?_, ?_, ?_, ?_⟩
  · intro t vals h
    unfold resume last_timestamp
    rw [h]
    by_cases ht : 0 < t
    · simp [ht]
    · simp [ht, Nat.le_zero.mp (Nat.not_lt.mp ht)]
  · intro h; unfold resume last_timestamp; rw [h]; rfl
  · intro h; unfold resume last_timestamp; rw [h]; rfl
  · intro s h
    unfold resume last_timestamp
    rw [h]
    by_cases hn : isNumericStr s
    · by_cases hp : 0 < parseNat s
      · simp [hn, hp]
      · simp [hn, hp, Nat.le_zero.mp (Nat.not_lt.mp hp)]
    · simp [hn]

/-- Witness for `resume_spec`: a sink ending in a positive-timestamp row. -/
theorem resume_spec_witness :
    resume [Line.header, Line.data 7 [1]] = if 0 < 7 then 7 + 1 else 0 :=
  (resume_spec [Line.header, Line.data 7 [1]]).1 7 [1] rfl

/-! ### Claim C6: the stop conditions of the download loop -/

/-- The disjunction of the three per-iteration stop conditions, as checked by
lines 416, 420 and 432 for the iteration that requests `date_begin = start`:
non-"ok" upstream status, empty page, or cursor (the maximum of the resume
point and every timestamp written) at or past `dateEnd`. -/
def stopsNow (f : Nat → MeasureResp) (dateEnd start : Nat) : Prop :=
  respOk (f start) = false ∨ (f start).body = [] ∨
    dateEnd ≤ advanceStart start (sortBody (f start).body)

/-- Upstream page with status "ok". -/
def okPage (body : List (Nat × List Int)) : MeasureResp :=
  { status := some "ok", body := body }

/-- Upstream of the spec's export scenario with T0 = 1000: page 1 holds
timestamps T0 and T0+60, page 2 (served for the advanced cursor T0+61) holds
T0+120 and T0+3600; pages arrive unsorted. -/
def scenF : Nat → MeasureResp := fun s =>
  if s = 0 then okPage [(1060, [21]), (1000, [20])]
  else if s = 1061 then okPage [(4600, [23]), (1120, [22])]
  else okPage []

/-- C6: the loop body started with cursor `start` terminates the run at that
iteration exactly when one of the three stop conditions holds there (first
conjunct, stated for the sub-run of exactly this iteration); a non-"ok"
status aborts with precisely the rows already written, discarding the
offending page (second conjunct).  Scenario with T0 = 1000: an empty sink and
`windowEnd` = T0+3600 yield exactly the header plus 4 data rows in ascending
timestamp order, stopping in the second iteration because the last timestamp
reached `windowEnd` — and the run is not finished after the first page
(fourth conjunct). -/
theorem dl_loop_stop_conditions :
    (∀ (f : Nat → MeasureResp) (e start : Nat) (sink : List Line),
      (∃ out, dl_loop f e 1 start sink = some out) ↔ stopsNow f e start) ∧
    (∀ (f : Nat → MeasureResp) (e fuel start : Nat) (sink : List Line),
      respOk (f start) = false →
      dl_loop f e (fuel + 1) start sink = some (sink, StopReason.statusError)) ∧
    dl_csv scenF [] 4600 2 =
      some ([Line.header, Line.data 1000 [20], Line.data 1060 [21],
             Line.data 1120 [22], Line.data 4600 [23]], StopReason.reachedEnd) ∧
    dl_csv scenF [] 4600 1 = none := by
  refine ⟨?_, ?_, by decide, by decide⟩
  · intro f e start sink
    unfold dl_loop stopsNow
    by_cases h1 : respOk (f start)
    · by_cases h2 : (f start).body.isEmpty
      · simp [h1, h2, List.isEmpty_iff.mp h2]
      · by_cases h3 : e ≤ advanceStart start (sortBody (f start).body)
        · simp [dl_loop, h1, h2, h3]
        · simp [dl_loop, h1, h2, h3]
          exact fun hnil => h2 (by simp [hnil])
    · simp [h1, stopsNow]
  · intro f e fuel start sink h
    unfold dl_loop
    simp [h]

/-- Witness for `dl_loop_stop_conditions`: a response with no status field
aborts the loop at once, keeping the sink as already written. -/
theorem dl_loop_stop_conditions_witness :
    dl_loop (fun _ => { status := none, body := [(1, [2])] }) 99 3 0 [Line.header] =
      some ([Line.header], StopReason.statusError) :=
  dl_loop_stop_conditions.2.1 (fun _ => { status := none, body := [(1, [2])] })
    99 2 0 [Line.header] (by decide)

/-! ### Claim C1: counterexample to unconditional monotonicity -/

/-- Upstream returning one page whose timestamps have decimal numerals of
different lengths. -/
def cexF : Nat → MeasureResp := fun _ => okPage [(5, [1]), (10, [2])]

/-- C1 counterexample: `sorted` at line 424 sorts the page keys as strings,
and the string `"10"` sorts before `"5"`, so the run appends the rows in the
order 10, 5 — the appended timestamps are not strictly increasing (second
conjunct), contradicting the claim for this run. -/
theorem dl_csv_string_sort_breaks_order :
    dl_csv cexF [] 3 5 =
      some ([Line.header, Line.data 10 [2], Line.data 5 [1]], StopReason.reachedEnd) ∧
    ¬ List.Pairwise (· < ·) (dataTs [Line.header, Line.data 10 [2], Line.data 5 [1]]) := by
  constructor
  · decide
  · decide

/-! ### Decimal numerals: Python string order on timestamp keys -/

/-- Numeric value of a big-endian digit list. -/
def valBE (l : List Nat) : Nat := l.foldl (fun a d => 10 * a + d) 0

theorem foldl_valBE (l : List Nat) : ∀ a : Nat,
    l.foldl (fun a d => 10 * a + d) a = a * 10 ^ l.length + valBE l := by
  induction l with
  | nil => intro a; simp [valBE]
  | cons d l ih =>
    intro a
    have hd : valBE (d :: l) = d * 10 ^ l.length + valBE l := by
      show l.foldl _ (10 * 0 + d) = _
      rw [ih (10 * 0 + d)]
      ring
    simp only [List.foldl_cons, List.length_cons]
    rw [ih (10 * a + d), hd]
    ring

theorem valBE_cons (d : Nat) (l : List Nat) :
    valBE (d :: l) = d * 10 ^ l.length + valBE l := by
  show l.foldl _ (10 * 0 + d) = _
  rw [foldl_valBE]
  ring

theorem valBE_append_digit (l : List Nat) (d : Nat) :
    valBE (l ++ [d]) = 10 * valBE l + d := by
  unfold valBE
  rw [List.foldl_append]
  simp

theorem beDigitsAux_spec (n : Nat) : ∀ fuel, n ≤ fuel →
    valBE (beDigitsAux fuel n) = n ∧ ∀ d ∈ beDigitsAux fuel n, d < 10 := by
  induction n using Nat.strong_induction_on with
  | _ n ih =>
    intro fuel hfuel
    match fuel with
    | 0 =>
      have hn : n = 0 := Nat.le_zero.mp hfuel
      subst hn
      exact ⟨rfl, by simp [beDigitsAux]⟩
    | fuel + 1 =>
      by_cases hn : n = 0
      · subst hn; exact ⟨rfl, by simp [beDigitsAux]⟩
      · have hlt : n / 10 < n := Nat.div_lt_self (Nat.pos_of_ne_zero hn) (by omega)
        have hfl : n / 10 ≤ fuel := by omega
        obtain ⟨ihv, ihd⟩ := ih (n / 10) hlt fuel hfl
        refine ⟨?_, ?_⟩
        · simp only [beDigitsAux, if_neg hn]
          rw [valBE_append_digit, ihv]
          omega
        · simp only [beDigitsAux, if_neg hn]
          intro d hd
          rcases List.mem_append.mp hd with h | h
          · exact ihd d h
          · simp only [List.mem_singleton] at h
            subst h
            omega

theorem valBE_beDigits (n : Nat) : valBE (beDigits n) = n := by
  unfold beDigits
  by_cases hn : n = 0
  · subst hn; rfl
  · rw [if_neg hn]; exact (beDigitsAux_spec n n le_rfl).1

theorem beDigits_lt_ten (n : Nat) : ∀ d ∈ beDigits n, d < 10 := by
  unfold beDigits
  by_cases hn : n = 0
  · subst hn; simp
  · rw [if_neg hn]; exact (beDigitsAux_spec n n le_rfl).2

theorem valBE_lt_pow (l : List Nat) (h : ∀ d ∈ l, d < 10) :
    valBE l < 10 ^ l.length := by
  induction l with
  | nil => simp [valBE]
  | cons d l ih =>
    rw [valBE_cons, List.length_cons]
    have h1 : valBE l < 10 ^ l.length := ih fun x hx => h x (List.mem_cons_of_mem _ hx)
    have h2 : d < 10 := h d (List.mem_cons_self d l)
    calc d * 10 ^ l.length + valBE l < d * 10 ^ l.length + 10 ^ l.length := by omega
    _ = (d + 1) * 10 ^ l.length := by ring
    _ ≤ 10 * 10 ^ l.length := Nat.mul_le_mul_right _ (by omega)
    _ = 10 ^ (l.length + 1) := by ring

theorem headDominates (P x y vx vy : Nat) (hxy : x < y) (hvx : vx < P) :
    x * P + vx < y * P + vy := by
  have h1 : x * P + vx < (x + 1) * P := by
    have := Nat.add_lt_add_left hvx (x * P)
    calc x * P + vx < x * P + P := this
    _ = (x + 1) * P := by ring
  have h2 : (x + 1) * P ≤ y * P := Nat.mul_le_mul_right P hxy
  omega

theorem lexLt_cons_iff (a b : Nat) (as bs : List Nat) :
    lexLt (a :: as) (b :: bs) = true ↔ a < b ∨ (a = b ∧ lexLt as bs = true) := by
  simp only [lexLt]
  by_cases hab : a < b
  · simp [hab]
  · by_cases hba : b < a
    · simp [hab, hba]
      omega
    · have hev : a = b := by omega
      simp [hab, hba, hev]

theorem lexLt_iff_valBE (l1 : List Nat) : ∀ (l2 : List Nat), l1.length = l2.length →
    (∀ d ∈ l1, d < 10) → (∀ d ∈ l2, d < 10) →
    (lexLt l1 l2 = true ↔ valBE l1 < valBE l2) := by
  induction l1 with
  | nil =>
    intro l2 hlen _ _
    have h2 : l2 = [] := List.eq_nil_of_length_eq_zero hlen.symm
    subst h2
    simp [lexLt]
  | cons a as ih =>
    intro l2 hlen h1 h2
    match l2 with
    | [] => simp at hlen
    | b :: bs =>
      simp only [List.length_cons, Nat.add_right_cancel_iff] at hlen
      have hda : ∀ d ∈ as, d < 10 := fun d hd => h1 d (List.mem_cons_of_mem _ hd)
      have hdb : ∀ d ∈ bs, d < 10 := fun d hd => h2 d (List.mem_cons_of_mem _ hd)
      have hva : valBE as < 10 ^ as.length := valBE_lt_pow as hda
      have hvb : valBE bs < 10 ^ bs.length := valBE_lt_pow bs hdb
      rw [lexLt_cons_iff, valBE_cons, valBE_cons, ← hlen]
      constructor
      · rintro (hab | ⟨hev, htl⟩)
        · exact headDominates _ a b _ _ hab hva
        · subst hev
          have := (ih bs hlen hda hdb).mp htl
          omega
      · intro hlt
        by_cases hab : a < b
        · exact Or.inl hab
        · by_cases hba : b < a
          · exfalso
            have := headDominates (10 ^ as.length) b a (valBE bs) (valBE as) hba
              (by rw [hlen]; exact hvb)
            omega
          · have hev : a = b := by omega
            subst hev
            refine Or.inr ⟨rfl, (ih bs hlen hda hdb).mpr ?_⟩
            omega

theorem keyLt_iff (a b : Nat) (hlen : (beDigits a).length = (beDigits b).length) :
    keyLt a b = true ↔ a < b := by
  unfold keyLt
  rw [lexLt_iff_valBE (beDigits a) (beDigits b) hlen (beDigits_lt_ten a) (beDigits_lt_ten b),
      valBE_beDigits, valBE_beDigits]

theorem lexLt_irrefl : ∀ l : List Nat, lexLt l l = false
  | [] => rfl
  | a :: as => by simp [lexLt, lexLt_irrefl as]

theorem lexLt_trans (l1 : List Nat) : ∀ (l2 l3 : List Nat),
    lexLt l1 l2 = true → lexLt l2 l3 = true → lexLt l1 l3 = true := by
  induction l1 with
  | nil =>
    intro l2 l3 h1 h2
    match l2, l3 with
    | [], _ => simp [lexLt] at h1
    | _ :: _, [] => simp [lexLt] at h2
    | _ :: _, _ :: _ => rfl
  | cons a as ih =>
    intro l2 l3 h1 h2
    match l2, l3 with
    | [], _ => simp [lexLt] at h1
    | _ :: _, [] => simp [lexLt] at h2
    | b :: bs, c :: cs =>
      rw [lexLt_cons_iff] at h1 h2 ⊢
      rcases h1 with h1 | ⟨hab, h1⟩ <;> rcases h2 with h2 | ⟨hbc, h2⟩
      · exact Or.inl (h1.trans h2)
      · exact Or.inl (hbc ▸ h1)
      · exact Or.inl (hab ▸ h2)
      · exact Or.inr ⟨hab.trans hbc, ih bs cs h1 h2⟩

theorem lexLt_connex (l1 : List Nat) : ∀ (l2 : List Nat),
    lexLt l1 l2 = false → lexLt l2 l1 = false → l1 = l2 := by
  induction l1 with
  | nil =>
    intro l2 h1 _
    match l2 with
    | [] => rfl
    | _ :: _ => simp [lexLt] at h1
  | cons a as ih =>
    intro l2 h1 h2
    match l2 with
    | [] => simp [lexLt] at h2
    | b :: bs =>
      have H1 : ¬ (a < b ∨ (a = b ∧ lexLt as bs = true)) := by
        rw [← lexLt_cons_iff]
        simp [h1]
      have H2 : ¬ (b < a ∨ (b = a ∧ lexLt bs as = true)) := by
        rw [← lexLt_cons_iff]
        simp [h2]
      push_neg at H1 H2
      obtain ⟨hnab, himp1⟩ := H1
      obtain ⟨hnba, himp2⟩ := H2
      have hev : a = b := by omega
      subst hev
      have e1 : lexLt as bs = false := by
        cases hx : lexLt as bs with
        | false => rfl
        | true => exact absurd hx (by simpa using himp1 rfl)
      have e2 : lexLt bs as = false := by
        cases hx : lexLt bs as with
        | false => rfl
        | true => exact absurd hx (by simpa using himp2 rfl)
      rw [ih bs e1 e2]

theorem lexLt_trichotomy (l1 l2 : List Nat) :
    lexLt l1 l2 = true ∨ lexLt l2 l1 = true ∨ l1 = l2 := by
  by_cases h1 : lexLt l1 l2 = true
  · exact Or.inl h1
  · by_cases h2 : lexLt l2 l1 = true
    · exact Or.inr (Or.inl h2)
    · exact Or.inr (Or.inr (lexLt_connex l1 l2 (by simpa using h1) (by simpa using h2)))

theorem lexLt_asymm (l1 l2 : List Nat) (h : lexLt l1 l2 = true) : lexLt l2 l1 = false := by
  cases hx : lexLt l2 l1 with
  | false => rfl
  | true =>
    have := lexLt_trans l1 l2 l1 h hx
    rw [lexLt_irrefl l1] at this
    exact Bool.noConfusion this

instance : IsTrans (Nat × List Int) keyOrder where
  trans := by
    intro x y z hxy hyz
    unfold keyOrder keyLt at hxy hyz ⊢
    by_contra hzx
    have hzx2 : lexLt (beDigits z.1) (beDigits x.1) = true := by simpa using hzx
    rcases lexLt_trichotomy (beDigits x.1) (beDigits y.1) with g | g | g
    · have := lexLt_trans (beDigits z.1) (beDigits x.1) (beDigits y.1) hzx2 g
      rw [hyz] at this
      exact Bool.noConfusion this
    · rw [hxy] at g
      exact Bool.noConfusion g
    · rw [← g] at hyz
      rw [hyz] at hzx2
      exact Bool.noConfusion hzx2

instance : IsTotal (Nat × List Int) keyOrder where
  total := by
    intro x y
    unfold keyOrder keyLt
    rcases lexLt_trichotomy (beDigits x.1) (beDigits y.1) with h | h | h
    · exact Or.inl (lexLt_asymm _ _ h)
    · exact Or.inr (lexLt_asymm _ _ h)
    · exact Or.inl (by rw [← h]; exact lexLt_irrefl _)

/-! ### Sorting facts for the page sort -/

theorem sortBody_perm (body : List (Nat × List Int)) : (sortBody body).Perm body :=
  List.perm_insertionSort keyOrder body

theorem sortBody_sorted (body : List (Nat × List Int)) :
    List.Pairwise keyOrder (sortBody body) :=
  List.sorted_insertionSort keyOrder body

/-- The page sort yields strictly increasing timestamps whenever the page's
key strings all have the same length (then string order and numeric order
agree) and the keys are distinct (true of any JSON object). -/
theorem sortBody_pairwise_lt (body : List (Nat × List Int))
    (hlen : ∀ x ∈ body, ∀ y ∈ body, (beDigits x.1).length = (beDigits y.1).length)
    (hnd : (body.map Prod.fst).Nodup) :
    List.Pairwise (fun x y : Nat × List Int => x.1 < y.1) (sortBody body) := by
  have hperm := sortBody_perm body
  have hne : List.Pairwise (fun x y : Nat × List Int => x.1 ≠ y.1) (sortBody body) := by
    have hb : List.Pairwise (fun x y : Nat × List Int => x.1 ≠ y.1) body := by
      rw [← List.pairwise_map]
      exact hnd
    exact (hperm.pairwise_iff fun h => h.symm).mpr hb
  have hboth := (sortBody_sorted body).and hne
  refine hboth.imp_of_mem ?_
  intro a b ha hb hab
  obtain ⟨hko, hne2⟩ := hab
  have ha2 : a ∈ body := hperm.mem_iff.mp ha
  have hb2 : b ∈ body := hperm.mem_iff.mp hb
  have hl := hlen a ha2 b hb2
  have hnb : ¬ b.1 < a.1 := by
    intro hba
    have := (keyLt_iff b.1 a.1 hl.symm).mpr hba
    unfold keyOrder at hko
    rw [hko] at this
    exact Bool.noConfusion this
  omega

/-! ### Run invariants of the exporter -/

theorem dataTs_append (s1 s2 : List Line) :
    dataTs (s1 ++ s2) = dataTs s1 ++ dataTs s2 :=
  List.filterMap_append s1 s2 _

theorem dataTs_pageLines (rows : List (Nat × List Int)) :
    dataTs (pageLines rows) = rows.map Prod.fst := by
  induction rows with
  | nil => rfl
  | cons r rest ih =>
    simp only [pageLines, dataTs, List.map_cons, List.filterMap_cons] at ih ⊢
    rw [ih]

theorem getLast?_pageLines (rows : List (Nat × List Int)) :
    (pageLines rows).getLast? =
      Option.map (fun r : Nat × List Int => Line.data r.1 r.2) rows.getLast? :=
  List.getLast?_map _ rows

theorem pairwise_le_getLast : ∀ (l : List Nat) (a : Nat),
    List.Pairwise (· < ·) l → l.getLast? = some a → ∀ x ∈ l, x ≤ a
  | [], a => by intro _ h; simp at h
  | [x], a => by
    intro _ h y hy
    simp only [List.getLast?_singleton, Option.some.injEq] at h
    simp only [List.mem_singleton] at hy
    omega
  | x :: y :: rest, a => by
    intro hp h z hz
    rw [List.getLast?_cons_cons] at h
    rcases List.mem_cons.mp hz with hz | hz
    · subst hz
      have ha : a ∈ y :: rest := List.mem_of_mem_getLast? h
      have := (List.pairwise_cons.mp hp).1 a ha
      omega
    · exact pairwise_le_getLast (y :: rest) a (List.pairwise_cons.mp hp).2 h z hz

theorem le_advanceStart (rows : List (Nat × List Int)) : ∀ start : Nat,
    start ≤ advanceStart start rows := by
  induction rows with
  | nil => intro start; exact le_rfl
  | cons r rest ih =>
    intro start
    unfold advanceStart at ih ⊢
    simp only [List.foldl_cons]
    refine le_trans ?_ (ih (if start < r.1 then r.1 else start))
    split <;> omega

theorem mem_le_advanceStart (rows : List (Nat × List Int)) : ∀ (start : Nat),
    ∀ r ∈ rows, r.1 ≤ advanceStart start rows := by
  induction rows with
  | nil => intro start r hr; simp at hr
  | cons q rest ih =>
    intro start r hr
    unfold advanceStart at ih ⊢
    simp only [List.foldl_cons]
    rcases List.mem_cons.mp hr with hr | hr
    · subst hr
      refine le_trans ?_ (le_advanceStart rest (if start < r.1 then r.1 else start))
      split <;> omega
    · exact ih (if start < q.1 then q.1 else start) r hr

/-- Sink well-formedness carried across runs: data-row timestamps strictly
increase along the file, and none exceeds the resume marker `last_timestamp`
reads back. -/
def SinkOk (sink : List Line) : Prop :=
  List.Pairwise (· < ·) (dataTs sink) ∧ ∀ u ∈ dataTs sink, u ≤ last_timestamp sink

/-- Upstream contract of the measurements endpoint assumed by the amended C1:
every page honours the requested `date_begin` (all returned timestamps are at
least it) with positive timestamps, the decimal numerals of one page's keys
all have the same length (true of real epoch timestamps — ten digits from
2001 to 2286 — and what makes Python's string sort act numerically), and the
keys of one page are distinct (true of any JSON object). -/
def Upstream (f : Nat → MeasureResp) : Prop :=
  ∀ s, (∀ r ∈ (f s).body, s ≤ r.1 ∧ 1 ≤ r.1) ∧
    (∀ x ∈ (f s).body, ∀ y ∈ (f s).body, (beDigits x.1).length = (beDigits y.1).length) ∧
    ((f s).body.map Prod.fst).Nodup

/-- Invariant of the download loop tying the cursor to the sink content. -/
def LoopInv (start : Nat) (sink : List Line) : Prop :=
  List.Pairwise (· < ·) (dataTs sink) ∧
  (∀ u ∈ dataTs sink, u < start ∨ u = 0) ∧
  (∀ u ∈ dataTs sink, u ≤ last_timestamp sink)

/-- Appending one sorted page preserves the loop invariant for the advanced
cursor. -/
theorem page_step (f : Nat → MeasureResp) (hf : Upstream f) (start : Nat)
    (sink : List Line) (hinv : LoopInv start sink) (hne : (f start).body ≠ []) :
    LoopInv (advanceStart start (sortBody (f start).body) + 1)
      (sink ++ pageLines (sortBody (f start).body)) := by
  obtain ⟨hbounds, hlen, hnd⟩ := hf start
  have hperm : (sortBody (f start).body).Perm (f start).body := sortBody_perm _
  have hmem : ∀ r ∈ sortBody (f start).body, r ∈ (f start).body :=
    fun r hr => hperm.mem_iff.mp hr
  have hkeys : List.Pairwise (· < ·) ((sortBody (f start).body).map Prod.fst) := by
    rw [List.pairwise_map]
    exact sortBody_pairwise_lt (f start).body hlen hnd
  have hdata : dataTs (sink ++ pageLines (sortBody (f start).body)) =
      dataTs sink ++ (sortBody (f start).body).map Prod.fst := by
    rw [dataTs_append, dataTs_pageLines]
  obtain ⟨hpw, hlt, hle⟩ := hinv
  have hcross : ∀ u ∈ dataTs sink, ∀ t ∈ (sortBody (f start).body).map Prod.fst, u < t := by
    intro u hu t ht
    obtain ⟨r, hr, hrt⟩ := List.mem_map.mp ht
    obtain ⟨h1, h2⟩ := hbounds r (hmem r hr)
    rcases hlt u hu with h | h <;> omega
  have hrne : sortBody (f start).body ≠ [] := by
    intro hnil
    apply hne
    have hl := hperm.length_eq
    rw [hnil] at hl
    exact List.eq_nil_of_length_eq_zero hl.symm
  obtain ⟨rl, hrl⟩ : ∃ rl, (sortBody (f start).body).getLast? = some rl := by
    cases hrow : (sortBody (f start).body).getLast? with
    | some rl => exact ⟨rl, rfl⟩
    | none => exact absurd (List.getLast?_eq_none_iff.mp hrow) hrne
  have hlast : last_timestamp (sink ++ pageLines (sortBody (f start).body)) = rl.1 := by
    unfold last_timestamp
    rw [List.getLast?_append, getLast?_pageLines, hrl]
    rfl
  have hkeylast : ((sortBody (f start).body).map Prod.fst).getLast? = some rl.1 := by
    rw [List.getLast?_map, hrl]
    rfl
  obtain ⟨hb1, hb2⟩ := hbounds rl (hmem rl (List.mem_of_mem_getLast? hrl))
  refine ⟨?_, ?_, ?_⟩
  · rw [hdata]
    exact List.pairwise_append.mpr ⟨hpw, hkeys, hcross⟩
  · rw [hdata]
    intro u hu
    left
    have hadv := le_advanceStart (sortBody (f start).body) start
    rcases List.mem_append.mp hu with h | h
    · rcases hlt u h with h1 | h1 <;> omega
    · obtain ⟨r, hr, hrt⟩ := List.mem_map.mp h
      have := mem_le_advanceStart (sortBody (f start).body) start r hr
      omega
  · rw [hdata, hlast]
    intro u hu
    rcases List.mem_append.mp hu with h | h
    · rcases hlt u h with h1 | h1 <;> omega
    · exact pairwise_le_getLast _ rl.1 hkeys hkeylast u h

/-- Soundness of the download loop: from any invariant-respecting state, a
completed run extends the sink purely by appending, and the resulting sink has
strictly increasing data timestamps, the final line carrying the largest. -/
theorem dl_loop_sound (f : Nat → MeasureResp) (hf : Upstream f) (e : Nat) :
    ∀ (fuel start : Nat) (sink : List Line) (out : List Line × StopReason),
      LoopInv start sink → dl_loop f e fuel start sink = some out →
      (∃ app, out.1 = sink ++ app) ∧
      List.Pairwise (· < ·) (dataTs out.1) ∧
      ∀ u ∈ dataTs out.1, u ≤ last_timestamp out.1 := by
  intro fuel
  induction fuel with
  | zero =>
    intro start sink out _ h
    simp [dl_loop] at h
  | succ fuel ih =>
    intro start sink out hinv h
    by_cases h1 : respOk (f start) = true
    · by_cases h2 : (f start).body.isEmpty = true
      · simp only [dl_loop, h1, h2, Bool.not_true] at h
        rw [if_pos trivial] at h
        obtain rfl : out = (sink, StopReason.noData) := (Option.some.inj h).symm
        exact ⟨⟨[], by simp⟩, hinv.1, hinv.2.2⟩
      · have hne : (f start).body ≠ [] := fun hb => h2 (by simp [hb])
        have hstep := page_step f hf start sink hinv hne
        have h2f : (f start).body.isEmpty = false := by simpa using h2
        by_cases h3 : e ≤ advanceStart start (sortBody (f start).body)
        · simp only [dl_loop, h1, h2f, Bool.not_true] at h
          rw [if_pos h3] at h
          obtain rfl : out = (sink ++ pageLines (sortBody (f start).body),
              StopReason.reachedEnd) := (Option.some.inj h).symm
          exact ⟨⟨pageLines (sortBody (f start).body), rfl⟩, hstep.1, hstep.2.2⟩
        · simp only [dl_loop, h1, h2f, Bool.not_true] at h
          rw [if_neg h3] at h
          obtain ⟨⟨app, happ⟩, hpw, hle⟩ := ih _ _ out hstep h
          exact ⟨⟨pageLines (sortBody (f start).body) ++ app,
            by rw [happ, List.append_assoc]⟩, hpw, hle⟩
    · have h1f : respOk (f start) = false := by simpa using h1
      simp only [dl_loop, h1f, Bool.not_false] at h
      rw [if_pos trivial] at h
      obtain rfl : out = (sink, StopReason.statusError) := (Option.some.inj h).symm
      exact ⟨⟨[], by simp⟩, hinv.1, hinv.2.2⟩

/-- The resume computation and the header write establish the loop invariant
on any well-formed sink. -/
theorem dl_csv_establish (sink0 : List Line) (h0 : SinkOk sink0) :
    LoopInv (resume sink0) (if sink0.isEmpty then [Line.header] else sink0) := by
  by_cases hs : sink0.isEmpty
  · rw [if_pos hs]
    refine ⟨?_, ?_, ?_⟩ <;> simp [dataTs]
  · rw [if_neg hs]
    obtain ⟨hpw, hle⟩ := h0
    refine ⟨hpw, ?_, hle⟩
    intro u hu
    have hu2 := hle u hu
    unfold resume
    by_cases hL : 0 < last_timestamp sink0
    · rw [if_pos hL]; omega
    · rw [if_neg hL]; omega

theorem dataTs_base (sink0 : List Line) :
    dataTs (if sink0.isEmpty then [Line.header] else sink0) = dataTs sink0 := by
  by_cases hs : sink0.isEmpty = true
  · rw [if_pos hs, List.isEmpty_iff.mp hs]
    rfl
  · rw [if_neg hs]

theorem base_ne_nil (sink0 : List Line) :
    (if sink0.isEmpty then [Line.header] else sink0) ≠ [] := by
  by_cases hs : sink0.isEmpty = true
  · rw [if_pos hs]
    simp
  · rw [if_neg hs]
    exact fun hc => hs (by simp [hc])

/-- C1 amended: under the upstream contract `Upstream` (pages honour the
requested `date_begin`, carry positive timestamps whose decimal numerals have
one common length per page — true of real ten-digit epoch timestamps — and
have distinct keys), and for a well-formed starting sink, a completed export
run appends rows only at the end; the sink then has strictly increasing data
timestamps (first conjunct) — hence also along every prefix, i.e. after an
interruption behind any whole row (third conjunct) — no timestamp occurs
twice (second conjunct), every appended row lies strictly above every
timestamp already present (fourth conjunct), and re-running the export on the
resulting sink appends no row whose timestamp is already present (fifth
conjunct).  Without the same-length hypothesis the string sort breaks this:
see `dl_csv_string_sort_breaks_order`. -/
theorem dl_csv_monotone_idempotent
    (f f2 : Nat → MeasureResp) (hf : Upstream f) (hf2 : Upstream f2)
    (sink0 : List Line) (h0 : SinkOk sink0)
    (e e2 fuel fuel2 : Nat) (sink1 sink2 : List Line) (r1 r2 : StopReason)
    (run1 : dl_csv f sink0 e fuel = some (sink1, r1))
    (run2 : dl_csv f2 sink1 e2 fuel2 = some (sink2, r2)) :
    List.Pairwise (· < ·) (dataTs sink1) ∧
    (dataTs sink1).Nodup ∧
    (∀ k, List.Pairwise (· < ·) (dataTs (sink1.take k))) ∧
    (∃ app1, sink1 = (if sink0.isEmpty then [Line.header] else sink0) ++ app1 ∧
      ∀ u ∈ dataTs sink0, ∀ t ∈ dataTs app1, u < t) ∧
    (∃ app2, sink2 = sink1 ++ app2 ∧ ∀ t ∈ dataTs app2, t ∉ dataTs sink1) := by
  have hinv1 := dl_csv_establish sink0 h0
  unfold dl_csv at run1 run2
  obtain ⟨⟨app1, happ1⟩, hpw1, hle1⟩ :=
    dl_loop_sound f hf e fuel (resume sink0) _ (sink1, r1) hinv1 run1
  have happ1 : sink1 = (if sink0.isEmpty then [Line.header] else sink0) ++ app1 := happ1
  have hpw1 : List.Pairwise (· < ·) (dataTs sink1) := hpw1
  have hle1 : ∀ u ∈ dataTs sink1, u ≤ last_timestamp sink1 := hle1
  have h1ne : sink1 ≠ [] := by
    rw [happ1]
    intro hc
    exact base_ne_nil sink0 (List.append_eq_nil.mp hc).1
  refine ⟨hpw1, ?_, ?_, ?_, ?_⟩
  · exact hpw1.imp fun h => Nat.ne_of_lt h
  · exact fun k =>
      List.Pairwise.sublist (List.Sublist.filterMap _ (List.take_sublist k sink1)) hpw1
  · refine ⟨app1, happ1, ?_⟩
    intro u hu t ht
    have hd1 : dataTs sink1 = dataTs sink0 ++ dataTs app1 := by
      rw [happ1, dataTs_append, dataTs_base]
    exact (List.pairwise_append.mp (hd1 ▸ hpw1)).2.2 u hu t ht
  · rw [if_neg (fun hc => h1ne (List.isEmpty_iff.mp hc))] at run2
    have hinv2 : LoopInv (resume sink1) sink1 := by
      have h := dl_csv_establish sink1 ⟨hpw1, hle1⟩
      rw [if_neg (fun hc => h1ne (List.isEmpty_iff.mp hc))] at h
      exact h
    obtain ⟨⟨app2, happ2⟩, hpw2, hle2⟩ :=
      dl_loop_sound f2 hf2 e2 fuel2 (resume sink1) sink1 (sink2, r2) hinv2 run2
    have happ2 : sink2 = sink1 ++ app2 := happ2
    have hpw2 : List.Pairwise (· < ·) (dataTs sink2) := hpw2
    refine ⟨app2, happ2, ?_⟩
    intro t ht hmem
    have hd2 : dataTs sink2 = dataTs sink1 ++ dataTs app2 := by
      rw [happ2, dataTs_append]
    exact absurd ((List.pairwise_append.mp (hd2 ▸ hpw2)).2.2 t hmem t ht) (lt_irrefl t)

/-- Upstream of the C1 witness: one positive-timestamp page at the first
request, nothing afterwards. -/
def goodF : Nat → MeasureResp := fun s => if s = 0 then okPage [(100, [7])] else okPage []

/-- Upstream answering every request with an empty page. -/
def emptyPageF : Nat → MeasureResp := fun _ => okPage []

theorem goodF_upstream : Upstream goodF := by
  intro s
  by_cases hs : s = 0
  · subst hs
    refine ⟨?_, ?_, ?_⟩ <;> simp [goodF, okPage]
  · refine ⟨?_, ?_, ?_⟩ <;> simp [goodF, okPage, hs]

theorem emptyPageF_upstream : Upstream emptyPageF := by
  intro s
  refine ⟨?_, ?_, ?_⟩ <;> simp [emptyPageF, okPage]

/-- Witness for `dl_csv_monotone_idempotent`: an export of one page into an
empty sink, then a re-run that finds no new data and appends nothing. -/
theorem dl_csv_monotone_idempotent_witness :
    List.Pairwise (· < ·) (dataTs [Line.header, Line.data 100 [7]]) ∧
    (dataTs [Line.header, Line.data 100 [7]]).Nodup ∧
    (∀ k, List.Pairwise (· < ·)
      (dataTs (([Line.header, Line.data 100 [7]] : List Line).take k))) ∧
    (∃ app1, [Line.header, Line.data 100 [7]] =
        (if ([] : List Line).isEmpty then [Line.header] else ([] : List Line)) ++ app1 ∧
      ∀ u ∈ dataTs ([] : List Line), ∀ t ∈ dataTs app1, u < t) ∧
    (∃ app2, [Line.header, Line.data 100 [7]] =
        [Line.header, Line.data 100 [7]] ++ app2 ∧
      ∀ t ∈ dataTs app2, t ∉ dataTs [Line.header, Line.data 100 [7]]) :=
  dl_csv_monotone_idempotent goodF emptyPageF goodF_upstream emptyPageF_upstream
    [] ⟨by simp [dataTs], by simp [dataTs]⟩ 50 50 2 1
    [Line.header, Line.data 100 [7]] [Line.header, Line.data 100 [7]]
    StopReason.reachedEnd StopReason.noData (by decide) (by decide)
